import Mathlib

/-!
Verification of the benchmark suite's statistics, batching, accounting,
degradation-analysis and monitoring logic, shallowly embedded from the
Python sources (`optimized_benchmark.py`, `enhanced_benchmark.py`,
`fixed_benchmark.py`, `investigate_degradation.py`, `scripts/run-benchmark.py`).
Latencies, durations and rates are modelled as rationals; per-request and
per-batch control flow is modelled as explicit folds over outcome lists, and
the semaphore-based concurrency controller as a step relation.
-/

namespace Benchmarks

/-! ### Percentile computation

Embeds `get_percentile` — textually identical in
`optimized_benchmark.py` (lines 275-281), `enhanced_benchmark.py`
(lines 206-212) and `scripts/run-benchmark.py` (lines 87-93):

```
def get_percentile(data, percentile):
    if not data:
        return 0
    index = int(len(data) * percentile / 100)
    if index >= len(data):
        index = len(data) - 1
    return data[index]
```

For `percentile ≥ 0` Python's `int()` truncation coincides with the floor. -/
def get_percentile (data : List ℚ) (percentile : ℚ) : ℚ :=
  if data = [] then 0
  else
    let index := (⌊(data.length : ℚ) * percentile / 100⌋).toNat
    let clamped := if data.length ≤ index then data.length - 1 else index
    data.getD clamped 0

/-- Nearest-rank percentile as the specification words it: the value at
sorted index `floor(count * p / 100)` clamped to `count - 1`, and `0` for an
empty list.  Written from the spec, to be compared with `get_percentile`. -/
def percentile_spec (data : List ℚ) (p : ℚ) : ℚ :=
  if data = [] then 0
  else data.getD (min (⌊(data.length : ℚ) * p / 100⌋).toNat (data.length - 1)) 0

lemma clamp_eq_min (n i : ℕ) (hn : 1 ≤ n) :
    (if n ≤ i then n - 1 else i) = min i (n - 1) := by
  split <;> omega

lemma get_percentile_eq_spec (data : List ℚ) (p : ℚ) :
    get_percentile data p = percentile_spec data p := by
  unfold get_percentile percentile_spec
  by_cases h : data = []
  · simp [h]
  · have hn : 1 ≤ data.length := List.length_pos.mpr h
    simp only [h, if_false]
    rw [clamp_eq_min _ _ hn]

/-- C1: for every latency list and every percentile `p ∈ [0,100]`, the
percentile function returns the element of the (already sorted) list at index
`⌊count * p / 100⌋`, clamped to `count - 1` when out of range (nearest rank,
no interpolation), and `0` for an empty list. -/
theorem get_percentile_matches_nearest_rank (data : List ℚ) (p : ℚ)
    (h0 : 0 ≤ p) (h1 : p ≤ 100) :
    get_percentile data p = percentile_spec data p :=
  get_percentile_eq_spec data p

theorem get_percentile_matches_nearest_rank_witness :
    (0 : ℚ) ≤ 95 ∧ (95 : ℚ) ≤ 100 ∧
      get_percentile [(1 : ℚ), 2, 3] 95 = percentile_spec [(1 : ℚ), 2, 3] 95 ∧
      get_percentile [(1 : ℚ), 2, 3] 95 = 3 :=
  ⟨by norm_num, by norm_num,
    get_percentile_matches_nearest_rank [(1 : ℚ), 2, 3] 95 (by norm_num) (by norm_num),
    by norm_num [get_percentile]; rfl⟩

lemma clamped_index_lt (data : List ℚ) (h : data ≠ []) (i : ℕ) :
    min i (data.length - 1) < data.length := by
  have hn : 1 ≤ data.length := List.length_pos.mpr h
  omega

/-- C10: the percentile function is monotone in the percentile argument on a
sorted latency list: `p ≤ q` in `[0,100]` implies
`get_percentile data p ≤ get_percentile data q`. -/
theorem get_percentile_monotone (data : List ℚ) (hs : data.Sorted (· ≤ ·))
    (p q : ℚ) (h0 : 0 ≤ p) (hpq : p ≤ q) (h1 : q ≤ 100) :
    get_percentile data p ≤ get_percentile data q := by
  rw [get_percentile_eq_spec data p, get_percentile_eq_spec data q]
  unfold percentile_spec
  by_cases h : data = []
  · simp [h]
  · simp only [h, if_false]
    have hcast : (0 : ℚ) ≤ (data.length : ℚ) := by positivity
    have hmono : (⌊(data.length : ℚ) * p / 100⌋).toNat ≤
        (⌊(data.length : ℚ) * q / 100⌋).toNat := by
      apply Int.toNat_le_toNat
      apply Int.floor_le_floor
      have : (data.length : ℚ) * p ≤ (data.length : ℚ) * q :=
        mul_le_mul_of_nonneg_left hpq hcast
      linarith
    have ha := clamped_index_lt data h (⌊(data.length : ℚ) * p / 100⌋).toNat
    have hb := clamped_index_lt data h (⌊(data.length : ℚ) * q / 100⌋).toNat
    rw [List.getD_eq_getElem _ _ ha, List.getD_eq_getElem _ _ hb]
    have hab : min (⌊(data.length : ℚ) * p / 100⌋).toNat (data.length - 1) ≤
        min (⌊(data.length : ℚ) * q / 100⌋).toNat (data.length - 1) := by omega
    exact List.Sorted.rel_get_of_le hs (a := ⟨_, ha⟩) (b := ⟨_, hb⟩) hab

theorem get_percentile_monotone_witness :
    ([(1 : ℚ), 2, 5].Sorted (· ≤ ·)) ∧ (0 : ℚ) ≤ 50 ∧ (50 : ℚ) ≤ 99 ∧ (99 : ℚ) ≤ 100 ∧
      get_percentile [(1 : ℚ), 2, 5] 50 ≤ get_percentile [(1 : ℚ), 2, 5] 99 :=
  ⟨by decide, by norm_num, by norm_num, by norm_num,
    get_percentile_monotone [(1 : ℚ), 2, 5] (by decide) 50 99
      (by norm_num) (by norm_num) (by norm_num)⟩

namespace Fixed

/-- Number of batches, from `fixed_benchmark.py` line 209:
`num_batches = (total_requests + batch_size - 1) // batch_size`. -/
def num_batches (total_requests batch_size : ℕ) : ℕ :=
  (total_requests + batch_size - 1) / batch_size

/-- Per-batch request counts of the loop at `fixed_benchmark.py` lines 219-220:
for `batch_num` in `1..num_batches`,
`requests_in_batch = min(batch_size, total_requests - (batch_num - 1) * batch_size)`;
here `k = batch_num - 1`. -/
def batchCounts (total_requests batch_size : ℕ) : List ℕ :=
  (List.range (num_batches total_requests batch_size)).map
    (fun k => min batch_size (total_requests - k * batch_size))

lemma num_batches_zero (B : ℕ) (hB : 0 < B) : num_batches 0 B = 0 := by
  unfold num_batches
  apply Nat.div_eq_of_lt
  omega

lemma num_batches_succ (V B : ℕ) (hB : 0 < B) (h : B ≤ V) :
    num_batches V B = num_batches (V - B) B + 1 := by
  unfold num_batches
  have h1 : V + B - 1 = (V - B + B - 1) + B := by omega
  rw [h1, Nat.add_div_right _ hB]

lemma num_batches_small (V B : ℕ) (h0 : 0 < V) (h : V < B) : num_batches V B = 1 := by
  have hB : 0 < B := lt_of_le_of_lt (Nat.zero_le V) h
  have hge : 1 ≤ num_batches V B :=
    (Nat.le_div_iff_mul_le hB).mpr (by omega)
  have hlt : num_batches V B < 2 :=
    (Nat.div_lt_iff_lt_mul hB).mpr (by omega)
  omega

lemma batchCounts_cons (V B : ℕ) (hB : 0 < B) (hV : 0 < V) :
    batchCounts V B = min B V :: batchCounts (V - min B V) B := by
  rcases le_or_lt B V with h | h
  · rw [min_eq_left h]
    unfold batchCounts
    rw [num_batches_succ V B hB h, List.range_succ_eq_map, List.map_cons, List.map_map]
    congr 1
    · simp only [Nat.zero_mul, Nat.sub_zero]
      exact min_eq_left h
    · apply List.map_congr_left
      intro k _
      simp only [Function.comp_apply]
      congr 1
      rw [Nat.succ_mul]
      generalize k * B = A
      omega
  · rw [min_eq_right (le_of_lt h)]
    unfold batchCounts
    rw [num_batches_small V B hV h, Nat.sub_self, num_batches_zero B hB]
    have hr : List.range 1 = [0] := rfl
    rw [hr]
    simp only [List.map_cons, List.map_nil, Nat.zero_mul, Nat.sub_zero]
    congr 1
    omega

lemma batchCounts_sum (V B : ℕ) (hB : 0 < B) : (batchCounts V B).sum = V := by
  induction V using Nat.strong_induction_on with
  | _ V ih =>
    rcases Nat.eq_zero_or_pos V with h0 | h0
    · subst h0
      unfold batchCounts
      rw [num_batches_zero B hB]
      simp
    · rw [batchCounts_cons V B hB h0, List.sum_cons]
      have hlt : V - min B V < V := by omega
      rw [ih _ hlt]
      omega

lemma num_batches_bounds (V B : ℕ) (hB : 0 < B) (hV : 0 < V) :
    (num_batches V B - 1) * B < V ∧ V ≤ num_batches V B * B := by
  unfold num_batches
  set L := (V + B - 1) / B with hL
  have hub : V + B - 1 < (L + 1) * B := by
    rw [hL]
    exact (Nat.div_lt_iff_lt_mul hB).mp (Nat.lt_succ_self _)
  have hlb : L * B ≤ V + B - 1 := (Nat.le_div_iff_mul_le hB).mp le_rfl
  rw [Nat.succ_mul] at hub
  rw [Nat.sub_mul, Nat.one_mul]
  generalize L * B = A at hub hlb ⊢
  omega

lemma num_batches_eq_ceil (V B : ℕ) (hB : 0 < B) :
    num_batches V B = ⌈(V : ℚ) / (B : ℚ)⌉₊ := by
  rcases Nat.eq_zero_or_pos V with h0 | h0
  · subst h0
    rw [num_batches_zero B hB]
    simp
  · have hbounds := num_batches_bounds V B hB h0
    have hL0 : num_batches V B ≠ 0 := by
      intro h
      rw [h] at hbounds
      simp at hbounds
      omega
    symm
    rw [Nat.ceil_eq_iff hL0]
    have hBQ : (0 : ℚ) < (B : ℚ) := by exact_mod_cast hB
    constructor
    · rw [lt_div_iff₀ hBQ]
      exact_mod_cast hbounds.1
    · rw [div_le_iff₀ hBQ]
      exact_mod_cast hbounds.2

lemma batchCounts_get (V B k : ℕ) (hk : k < (batchCounts V B).length) :
    (batchCounts V B).getD k 0 = min B (V - k * B) := by
  unfold batchCounts at *
  simp only [List.length_map, List.length_range] at hk
  rw [List.getD_eq_getElem _ _ (by simpa using hk)]
  simp [hk]

lemma batchCounts_pos (V B : ℕ) (hB : 0 < B) :
    ∀ c ∈ batchCounts V B, 0 < c ∧ c ≤ B := by
  intro c hc
  unfold batchCounts at hc
  simp only [List.mem_map, List.mem_range] at hc
  obtain ⟨k, hk, rfl⟩ := hc
  unfold num_batches at hk
  have h1 : (k + 1) * B ≤ V + B - 1 := (Nat.le_div_iff_mul_le hB).mp hk
  rw [Nat.succ_mul] at h1
  generalize k * B = A at h1 ⊢
  omega

end Fixed

/-- C9: for every total volume `V ≥ 0` and batch size `B > 0`, the driver in
`FixedBenchmark.run_benchmark` partitions `V` into exactly `⌈V/B⌉` batches,
each batch count is `min(B, remaining)`, hence positive and at most `B`, and
the counts sum to `V`. -/
theorem run_benchmark_partition (V B : ℕ) (hB : 0 < B) :
    (Fixed.batchCounts V B).length = ⌈(V : ℚ) / (B : ℚ)⌉₊ ∧
    (∀ c ∈ Fixed.batchCounts V B, 0 < c ∧ c ≤ B) ∧
    (∀ k, k < (Fixed.batchCounts V B).length →
      (Fixed.batchCounts V B).getD k 0 = min B (V - k * B)) ∧
    (Fixed.batchCounts V B).sum = V := by
  refine ⟨?_, Fixed.batchCounts_pos V B hB,
    fun k hk => Fixed.batchCounts_get V B k hk, Fixed.batchCounts_sum V B hB⟩
  unfold Fixed.batchCounts
  simp [Fixed.num_batches_eq_ceil V B hB]

theorem run_benchmark_partition_witness :
    0 < 3 ∧ (Fixed.batchCounts 7 3).length = ⌈(7 : ℚ) / (3 : ℚ)⌉₊ ∧
      (Fixed.batchCounts 7 3).sum = 7 ∧ Fixed.batchCounts 7 3 = [3, 3, 1] :=
  ⟨by decide, (run_benchmark_partition 7 3 (by decide)).1,
    (run_benchmark_partition 7 3 (by decide)).2.2.2, by decide⟩

/-! ### Request outcomes and per-variant request executors -/

/-- Result of one HTTP transport attempt, as the request executors observe it:
a completed response with status code after `elapsed_ms` wall-clock
milliseconds, a timeout raised after `elapsed_ms`, or any other exception
raised after `elapsed_ms`. -/
inductive TransportOutcome where
  | ok (elapsed_ms : ℚ) (status : ℕ)
  | timedOut (elapsed_ms : ℚ)
  | errored (elapsed_ms : ℚ)
deriving DecidableEq

def TransportOutcome.elapsed : TransportOutcome → ℚ
  | .ok e _ => e
  | .timedOut e => e
  | .errored e => e

/-- True exactly on transport failures (timeout or any other exception). -/
def TransportOutcome.isTransportFailure : TransportOutcome → Bool
  | .ok _ _ => false
  | .timedOut _ => true
  | .errored _ => true

/-- One element of the list returned by
`asyncio.gather(*tasks, return_exceptions=True)`: either the
`(latency, success)` pair produced by the request coroutine, or a raised
exception object. -/
inductive GatherItem where
  | val (latency_ms : ℚ) (succ : Bool)
  | exn
deriving DecidableEq

namespace Optimized

/-- `RequestWorker.process_request` (`optimized_benchmark.py` lines 111-124):
success path returns the elapsed latency and `status == 200`; both the
`asyncio.TimeoutError` and the generic `Exception` handlers return the
elapsed latency up to the failure point with `False`. -/
def process_request (o : TransportOutcome) : ℚ × Bool :=
  match o with
  | .ok e status => (e, status == 200)
  | .timedOut e => (e, false)
  | .errored e => (e, false)

structure Stats where
  latencies : List ℚ
  successes : ℕ
  failures : ℕ
deriving DecidableEq

/-- Stats update inside `process_with_stats` (`optimized_benchmark.py`
lines 229-234): append the latency, then increment exactly one counter. -/
def process_with_stats (st : Stats) (r : ℚ × Bool) : Stats :=
  { latencies := st.latencies ++ [r.1]
    successes := if r.2 then st.successes + 1 else st.successes
    failures := if r.2 then st.failures else st.failures + 1 }

/-- Statistics accumulated over all `num_requests` tasks of
`run_benchmark_test`; each task runs `process_request` and folds its result
into the shared stats dict under the lock. -/
def runStats (outcomes : List TransportOutcome) : Stats :=
  (outcomes.map process_request).foldl process_with_stats ⟨[], 0, 0⟩

structure Performance where
  total_time : ℚ
  throughput : ℚ
  success_rate : ℚ
  total_requests : ℕ
  successful : ℕ
  failed : ℕ
deriving DecidableEq

/-- The `performance` section of `run_benchmark_test`'s result
(`optimized_benchmark.py` lines 283-298).  `num_requests` equals the number
of dispatched tasks, i.e. `outcomes.length`.  Note line 283:
`throughput = num_requests / total_time if total_time > 0 else 0`. -/
def performance (outcomes : List TransportOutcome) (total_time : ℚ) : Performance :=
  let st := runStats outcomes
  let num_requests := outcomes.length
  { total_time := total_time
    throughput := if 0 < total_time then (num_requests : ℚ) / total_time else 0
    success_rate :=
      if 0 < num_requests then (st.successes : ℚ) / num_requests * 100 else 0
    total_requests := num_requests
    successful := st.successes
    failed := st.failures }

end Optimized

namespace Enhanced

/-- Result-accumulation loop of `run_benchmark_test`
(`enhanced_benchmark.py` lines 173-183): an exception object appends
latency 0 and counts as a failure; a `(latency, success)` pair appends the
latency and increments exactly one of the two counters. -/
def processResult (st : Optimized.Stats) (r : GatherItem) : Optimized.Stats :=
  match r with
  | .exn =>
      { st with latencies := st.latencies ++ [0], failures := st.failures + 1 }
  | .val lat s =>
      { latencies := st.latencies ++ [lat]
        successes := if s then st.successes + 1 else st.successes
        failures := if s then st.failures else st.failures + 1 }

/-- Results delivered for one chunk of `batch_size` dispatched requests
(`enhanced_benchmark.py` lines 164-171): `none` models the per-batch
timeout (`asyncio.wait_for` raising `TimeoutError`), which the code replaces
by `[(0, False)] * batch_size`. -/
def batchResults (batch_size : ℕ) : Option (List GatherItem) → List GatherItem
  | some items => items
  | none => List.replicate batch_size (.val 0 false)

/-- Statistics over all chunks of the run; each chunk carries its dispatched
request count and its gather result (`none` = batch timeout). -/
def runChunks (chunks : List (ℕ × Option (List GatherItem))) : Optimized.Stats :=
  chunks.foldl (fun st c => (batchResults c.1 c.2).foldl processResult st) ⟨[], 0, 0⟩

end Enhanced

namespace Fixed

/-- `make_request` (`fixed_benchmark.py` lines 113-125): the success path
returns the elapsed latency and `status == 200`, but both exception handlers
return `0, False` — the recorded latency on a transport failure is 0. -/
def make_request (o : TransportOutcome) : ℚ × Bool :=
  match o with
  | .ok e status => (e, status == 200)
  | .timedOut _ => (0, false)
  | .errored _ => (0, false)

structure BatchStats where
  latencies : List ℚ
  successes : ℕ
  failures : ℕ
deriving DecidableEq

/-- Result-accumulation loop of `run_batch` (`fixed_benchmark.py`
lines 138-148): a tuple result counts as success or failure (success
latencies are kept only when positive); a non-tuple (exception) result
counts as a failure. -/
def processResult (st : BatchStats) (r : GatherItem) : BatchStats :=
  match r with
  | .val lat s =>
      if s then
        { st with successes := st.successes + 1
                  latencies := if 0 < lat then st.latencies ++ [lat] else st.latencies }
      else { st with failures := st.failures + 1 }
  | .exn => { st with failures := st.failures + 1 }

def batchStats (results : List GatherItem) : BatchStats :=
  results.foldl processResult ⟨[], 0, 0⟩

end Fixed

lemma foldl_count {α σ : Type} (f : σ → α → σ) (s g : σ → ℕ)
    (h : ∀ st a, s (f st a) + g (f st a) = s st + g st + 1) :
    ∀ (l : List α) (st : σ),
      s (l.foldl f st) + g (l.foldl f st) = s st + g st + l.length := by
  intro l
  induction l with
  | nil => intro st; simp
  | cons a t ih =>
      intro st
      rw [List.foldl_cons, ih (f st a), h st a, List.length_cons]
      omega

lemma optimized_step_count (st : Benchmarks.Optimized.Stats) (r : ℚ × Bool) :
    (Optimized.process_with_stats st r).successes
        + (Optimized.process_with_stats st r).failures
      = st.successes + st.failures + 1 := by
  rcases r with ⟨lat, s⟩
  cases s <;> simp [Optimized.process_with_stats] <;> omega

lemma enhanced_step_count (st : Benchmarks.Optimized.Stats) (r : GatherItem) :
    (Enhanced.processResult st r).successes + (Enhanced.processResult st r).failures
      = st.successes + st.failures + 1 := by
  rcases r with ⟨lat, s⟩ | _
  · cases s <;> simp [Enhanced.processResult] <;> omega
  · simp [Enhanced.processResult]
    omega

lemma fixed_step_count (st : Benchmarks.Fixed.BatchStats) (r : GatherItem) :
    (Fixed.processResult st r).successes + (Fixed.processResult st r).failures
      = st.successes + st.failures + 1 := by
  rcases r with ⟨lat, s⟩ | _
  · cases s <;> simp [Fixed.processResult] <;> omega
  · simp [Fixed.processResult]
    omega

lemma enhanced_runChunks_count (chunks : List (ℕ × Option (List GatherItem)))
    (hlen : ∀ c ∈ chunks, ∀ items, c.2 = some items → items.length = c.1) :
    (Enhanced.runChunks chunks).successes + (Enhanced.runChunks chunks).failures
      = (chunks.map Prod.fst).sum := by
  unfold Enhanced.runChunks
  suffices h : ∀ (cs : List (ℕ × Option (List GatherItem)))
      (st : Benchmarks.Optimized.Stats),
      (∀ c ∈ cs, ∀ items, c.2 = some items → items.length = c.1) →
      ((cs.foldl (fun st c => (Enhanced.batchResults c.1 c.2).foldl
          Enhanced.processResult st) st).successes
        + (cs.foldl (fun st c => (Enhanced.batchResults c.1 c.2).foldl
            Enhanced.processResult st) st).failures
        = st.successes + st.failures + (cs.map Prod.fst).sum) by
    simpa using h chunks ⟨[], 0, 0⟩ hlen
  intro cs
  induction cs with
  | nil => intro st _; simp
  | cons c t ih =>
      intro st hcs
      rw [List.foldl_cons]
      rw [ih _ (fun x hx => hcs x (List.mem_cons_of_mem c hx))]
      have hstep := foldl_count Enhanced.processResult
        (·.successes) (·.failures) enhanced_step_count
        (Enhanced.batchResults c.1 c.2) st
      have hblen : (Enhanced.batchResults c.1 c.2).length = c.1 := by
        rcases hc2 : c.2 with _ | items
        · simp [Enhanced.batchResults]
        · simpa [Enhanced.batchResults] using
            hcs c (List.mem_cons_self c t) items hc2
      rw [hstep, hblen, List.map_cons, List.sum_cons]
      omega

/-- C2: for every completed batch of `N` dispatched requests, the recorded
successful count plus the recorded failed count equals `N`: each request
outcome (success, failure, exception or batch timeout) increments exactly
one of the two counters exactly once — in `process_with_stats`
(optimized), in `run_benchmark_test`'s result loop (enhanced, where a batch
timeout fails the whole chunk), and in `run_batch`'s result loop (fixed). -/
theorem batch_accounting_exact
    (outcomes : List TransportOutcome)
    (chunks : List (ℕ × Option (List GatherItem)))
    (hlen : ∀ c ∈ chunks, ∀ items, c.2 = some items → items.length = c.1)
    (results : List GatherItem) :
    (Optimized.runStats outcomes).successes + (Optimized.runStats outcomes).failures
        = outcomes.length ∧
    (Enhanced.runChunks chunks).successes + (Enhanced.runChunks chunks).failures
        = (chunks.map Prod.fst).sum ∧
    (Fixed.batchStats results).successes + (Fixed.batchStats results).failures
        = results.length := by
  refine ⟨?_, enhanced_runChunks_count chunks hlen, ?_⟩
  · unfold Optimized.runStats
    have h := foldl_count Optimized.process_with_stats
      (·.successes) (·.failures) optimized_step_count
      (outcomes.map Optimized.process_request) ⟨[], 0, 0⟩
    simpa using h
  · unfold Fixed.batchStats
    have h := foldl_count Fixed.processResult
      (·.successes) (·.failures) fixed_step_count results ⟨[], 0, 0⟩
    simpa using h

theorem batch_accounting_exact_witness :
    ((∀ c ∈ ([(2, some [GatherItem.val 5 true, GatherItem.exn]), (3, none)] :
        List (ℕ × Option (List GatherItem))), ∀ items, c.2 = some items →
          items.length = c.1) ∧
      (Optimized.runStats [.ok 7 200, .timedOut 3, .errored 2]).successes
        + (Optimized.runStats [.ok 7 200, .timedOut 3, .errored 2]).failures = 3 ∧
      (Enhanced.runChunks [(2, some [GatherItem.val 5 true, GatherItem.exn]),
          (3, none)]).successes
        + (Enhanced.runChunks [(2, some [GatherItem.val 5 true, GatherItem.exn]),
            (3, none)]).failures = 5 ∧
      (Fixed.batchStats [.val 5 true, .val 2 false, .exn]).successes
        + (Fixed.batchStats [.val 5 true, .val 2 false, .exn]).failures = 3) := by
  have hlen : ∀ c ∈ ([(2, some [GatherItem.val 5 true, GatherItem.exn]), (3, none)] :
      List (ℕ × Option (List GatherItem))), ∀ items, c.2 = some items →
        items.length = c.1 := by decide
  have h := batch_accounting_exact [.ok 7 200, .timedOut 3, .errored 2]
    [(2, some [GatherItem.val 5 true, GatherItem.exn]), (3, none)] hlen
    [.val 5 true, .val 2 false, .exn]
  refine ⟨hlen, ?_, ?_, ?_⟩
  · simpa using h.1
  · simpa using h.2.1
  · simpa using h.2.2

namespace Investigate

/-- Snapshot of TCP connection state assembled by `monitor_connections`
(`investigate_degradation.py` lines 51-58) when `netstat` succeeds: the
total connection count to the target port and the TIME_WAIT count. -/
structure ConnSnapshot where
  total : ℤ
  time_wait : ℤ
deriving DecidableEq

/-- `make_request` (`investigate_degradation.py` lines 97-108): the success
path returns the elapsed latency, `status == 200` and no error; the timeout
handler and the generic exception handler both return latency `0`, `False`
and an error tag. -/
def make_request (o : TransportOutcome) : ℚ × Bool × Option String :=
  match o with
  | .ok e status => (e, status == 200, none)
  | .timedOut _ => (0, false, some "timeout")
  | .errored _ => (0, false, some "error")

structure WaveStats where
  latencies : List ℚ
  successful : ℕ
  errors : List String
deriving DecidableEq

/-- Result-processing loop of `run_wave` (`investigate_degradation.py`
lines 117-123): successes append their latency and increment `successful`;
failing results with an error tag append the tag. -/
def processWave (results : List (ℚ × Bool × Option String)) : WaveStats :=
  results.foldl
    (fun st r =>
      if r.2.1 then
        { st with latencies := st.latencies ++ [r.1], successful := st.successful + 1 }
      else
        match r.2.2 with
        | some e => { st with errors := st.errors ++ [e] }
        | none => st)
    ⟨[], 0, []⟩

/-- Per-wave metric assembled by `run_wave` (`investigate_degradation.py`
lines 140-153); only the fields the degradation analyzer reads are
modelled. -/
structure WaveMetric where
  throughput : ℚ
  p99_latency : ℚ
  memory_mb : ℚ
  connections_after : Option ConnSnapshot
deriving DecidableEq

/-- `run_wave`'s metric computation.  Line 125:
`throughput = successful / duration if duration > 0 else 0`.  Python indexes
the sorted p99 with `int(len * 0.99)`; `99/100` is used here — the two agree
except for float-rounding corner cases, and no claim depends on that
field. -/
def run_wave (results : List (ℚ × Bool × Option String))
    (duration memory_mb : ℚ) (conn_after : Option ConnSnapshot) : WaveMetric :=
  let st := processWave results
  let lat := st.latencies.insertionSort (· ≤ ·)
  { throughput := if 0 < duration then (st.successful : ℚ) / duration else 0
    p99_latency :=
      if lat = [] then 0 else lat.getD (⌊(lat.length : ℚ) * 99 / 100⌋).toNat 0
    memory_mb := memory_mb
    connections_after := conn_after }

end Investigate

namespace Fixed

structure BatchResult where
  batch : ℕ
  throughput : ℚ
  success_rate : ℚ
  total_requests : ℕ
  successful : ℕ
  failed : ℕ
  avg_latency : ℚ
  p99_latency : ℚ
  duration : ℚ
deriving DecidableEq

/-- Metric computation of `run_batch` (`fixed_benchmark.py` lines 157-184)
over the gathered per-request results, the dispatched request count and the
measured batch duration.  Line 168:
`throughput = successes / total_time if total_time > 0 else 0`.  Python
indexes the p99 with `int(len * 0.99)`; `99/100` is used here — the two
agree except for float-rounding corner cases, and no claim depends on that
field. -/
def run_batch (batch_num : ℕ) (results : List GatherItem) (num_requests : ℕ)
    (total_time : ℚ) : BatchResult :=
  let st := batchStats results
  let lat := st.latencies.insertionSort (· ≤ ·)
  { batch := batch_num
    throughput := if 0 < total_time then (st.successes : ℚ) / total_time else 0
    success_rate :=
      if 0 < num_requests then (st.successes : ℚ) / num_requests * 100 else 0
    total_requests := num_requests
    successful := st.successes
    failed := st.failures
    avg_latency := if lat = [] then 0 else lat.sum / lat.length
    p99_latency :=
      if lat = [] then 0 else lat.getD (⌊(lat.length : ℚ) * 99 / 100⌋).toNat 0
    duration := total_time }

end Fixed

/-- C3 counterexample: in `run_benchmark_test` of `optimized_benchmark.py`
(line 283) the reported throughput divides the total dispatched request
count, not the successful count, by the duration: with 5 dispatched
requests, 3 successes and duration 1 the code reports 5, not 3. -/
theorem optimized_throughput_not_successes :
    (Optimized.performance
        [.ok 1 200, .ok 1 200, .ok 1 200, .timedOut 1, .errored 1] 1).successful = 3 ∧
    (Optimized.performance
        [.ok 1 200, .ok 1 200, .ok 1 200, .timedOut 1, .errored 1] 1).throughput = 5 ∧
    ¬ ((Optimized.performance
          [.ok 1 200, .ok 1 200, .ok 1 200, .timedOut 1, .errored 1] 1).throughput
        = ((Optimized.performance
            [.ok 1 200, .ok 1 200, .ok 1 200, .timedOut 1, .errored 1] 1).successful : ℚ)
          / (Optimized.performance
              [.ok 1 200, .ok 1 200, .ok 1 200, .timedOut 1, .errored 1] 1).total_time) := by
  refine ⟨by decide, ?_, ?_⟩ <;>
    norm_num [Optimized.performance, Optimized.runStats, Optimized.process_request,
      Optimized.process_with_stats]

/-- C3 (amended): `run_batch` (fixed) and `run_wave` (investigate) report
`throughput = successes / duration`, with 0 when the duration is not
positive; `run_benchmark_test` (optimized) instead reports
`num_requests / total_time` — the numerator there is the total dispatched
count, not the successful count. -/
theorem throughput_formula_by_variant
    (results : List GatherItem) (bn n : ℕ) (t : ℚ)
    (wresults : List (ℚ × Bool × Option String)) (d m : ℚ)
    (ca : Option Investigate.ConnSnapshot)
    (outcomes : List TransportOutcome) (u : ℚ) :
    (0 < t → (Fixed.run_batch bn results n t).throughput
        = ((Fixed.batchStats results).successes : ℚ) / t) ∧
    (¬ 0 < t → (Fixed.run_batch bn results n t).throughput = 0) ∧
    (0 < d → (Investigate.run_wave wresults d m ca).throughput
        = ((Investigate.processWave wresults).successful : ℚ) / d) ∧
    (¬ 0 < d → (Investigate.run_wave wresults d m ca).throughput = 0) ∧
    (0 < u → (Optimized.performance outcomes u).throughput = (outcomes.length : ℚ) / u) ∧
    (¬ 0 < u → (Optimized.performance outcomes u).throughput = 0) := by
  refine ⟨fun h => ?_, fun h => ?_, fun h => ?_, fun h => ?_, fun h => ?_, fun h => ?_⟩ <;>
    simp [Fixed.run_batch, Investigate.run_wave, Optimized.performance, h]

theorem throughput_formula_by_variant_witness :
    (0 : ℚ) < 2 ∧
      (Fixed.run_batch 1 [.val 5 true, .val 6 true, .exn] 3 2).throughput
        = ((Fixed.batchStats [.val 5 true, .val 6 true, .exn]).successes : ℚ) / 2 ∧
      (Fixed.run_batch 1 [.val 5 true, .val 6 true, .exn] 3 2).throughput = 1 :=
  ⟨by norm_num,
    (throughput_formula_by_variant [.val 5 true, .val 6 true, .exn] 1 3 2
      [] 1 1 none [] 1).1 (by norm_num),
    by norm_num [Fixed.run_batch, Fixed.batchStats, Fixed.processResult]⟩

/-- C4 counterexample: `make_request` in `fixed_benchmark.py` (lines
122-125) records latency 0 for a request whose transport times out after 50
ms, not the elapsed time up to the failure point. -/
theorem fixed_failure_latency_zero :
    (TransportOutcome.timedOut 50).isTransportFailure = true ∧
    (TransportOutcome.timedOut 50).elapsed = 50 ∧
    Fixed.make_request (.timedOut 50) = (0, false) ∧
    Fixed.make_request (.timedOut 50) ≠ ((TransportOutcome.timedOut 50).elapsed, false) := by
  refine ⟨rfl, rfl, rfl, ?_⟩
  simp [Fixed.make_request, TransportOutcome.elapsed]

/-- C4 (amended): every transport failure (timeout or any other exception)
yields a failure outcome without raising in all three request executors; the
optimized executor records the elapsed time up to the failure point as the
latency, while the fixed and investigate executors record latency 0. -/
theorem failure_outcome_by_variant (o : TransportOutcome)
    (h : o.isTransportFailure = true) :
    (Optimized.process_request o).2 = false ∧
    (Optimized.process_request o).1 = o.elapsed ∧
    (Fixed.make_request o).2 = false ∧
    (Fixed.make_request o).1 = 0 ∧
    (Investigate.make_request o).2.1 = false ∧
    (Investigate.make_request o).1 = 0 := by
  cases o <;>
    simp_all [Optimized.process_request, Fixed.make_request,
      Investigate.make_request, TransportOutcome.isTransportFailure,
      TransportOutcome.elapsed]

theorem failure_outcome_by_variant_witness :
    (TransportOutcome.errored 7).isTransportFailure = true ∧
      (Optimized.process_request (.errored 7)).1 = (TransportOutcome.errored 7).elapsed ∧
      (Fixed.make_request (.errored 7)).1 = 0 :=
  ⟨by decide,
    (failure_outcome_by_variant (.errored 7) (by decide)).2.1,
    (failure_outcome_by_variant (.errored 7) (by decide)).2.2.2.1⟩

namespace Investigate

/-- Tagged findings printed by `analyze_degradation`
(`investigate_degradation.py` lines 247-271), in the order the code appends
them to `issues`. -/
inductive Issue where
  | significantDegradation
  | memoryLeakSuspected
  | connectionLeak
  | portExhaustionRisk
  | gradualDegradation
  | suddenDegradation
deriving DecidableEq

def dummySnap : ConnSnapshot := ⟨0, 0⟩

def dummyMetric : WaveMetric := ⟨0, 0, 0, none⟩

/-- `analyze_degradation` (`investigate_degradation.py` lines 195-271),
reduced to its structured content: `none` when fewer than 2 wave metrics
were collected ("Not enough data"); otherwise the computed
`degradation_pct` together with the ordered list of diagnosed issues.
Indexing mirrors the Python: `[0]`, `[-1]`, and `len // 2`;
`total_connections` and `time_wait_connections` collect entries only from
metrics whose `connections_after` snapshot is present. -/
def analyze_degradation (metrics : List WaveMetric) : Option (ℚ × List Issue) :=
  if metrics.length < 2 then none
  else
    let throughputs := metrics.map (fun m => m.throughput)
    let memories := metrics.map (fun m => m.memory_mb)
    let first_throughput := throughputs.getD 0 0
    let last_throughput := throughputs.getLastD 0
    let degradation_pct := (first_throughput - last_throughput) / first_throughput * 100
    let total_connections :=
      metrics.filterMap (fun m => m.connections_after.map (fun c => c.total))
    let time_wait_connections :=
      metrics.filterMap (fun m => m.connections_after.map (fun c => c.time_wait))
    let mid_point := throughputs.length / 2
    let mid_throughput := throughputs.getD mid_point 0
    let issues : List Issue :=
      if 20 < degradation_pct then
        [.significantDegradation]
        ++ (if 100 < memories.getLastD 0 - memories.getD 0 0 then
              [.memoryLeakSuspected] else [])
        ++ (if total_connections ≠ [] ∧
              100 < total_connections.getLastD 0 - total_connections.getD 0 0 then
              [.connectionLeak] else [])
        ++ (if time_wait_connections ≠ [] ∧
              1000 < time_wait_connections.getLastD 0 then
              [.portExhaustionRisk] else [])
        ++ (if 1 / 10 < (first_throughput - mid_throughput) / first_throughput then
              [.gradualDegradation] else [.suddenDegradation])
      else []
    some (degradation_pct, issues)

end Investigate

lemma getD_zero_map {α β : Type} (f : α → β) (l : List α) (h : l ≠ [])
    (d : α) (z : β) : (l.map f).getD 0 z = f (l.headD d) := by
  cases l with
  | nil => exact absurd rfl h
  | cons a t => rfl

lemma getLastD_map_fd {α β : Type} (f : α → β) :
    ∀ (l : List α) (d : α), (l.map f).getLastD (f d) = f (l.getLastD d) := by
  intro l
  induction l with
  | nil => intro d; rfl
  | cons a t ih =>
      intro d
      simp only [List.map_cons, List.getLastD_cons]
      exact ih a

lemma getLastD_map {α β : Type} (f : α → β) (l : List α) (h : l ≠ [])
    (d : α) (z : β) : (l.map f).getLastD z = f (l.getLastD d) := by
  cases l with
  | nil => exact absurd rfl h
  | cons a t =>
      simp only [List.map_cons, List.getLastD_cons]
      exact getLastD_map_fd f t a

lemma getD_map {α β : Type} (f : α → β) (l : List α) (d : α) (i : ℕ)
    (hi : i < l.length) (z : β) : (l.map f).getD i z = f (l.getD i d) := by
  rw [List.getD_eq_getElem _ _ (by simpa using hi), List.getD_eq_getElem _ _ hi]
  simp

lemma filterMap_opt_map {α β γ : Type} (g : α → Option β) (f : β → γ) (d : β) :
    ∀ (l : List α), (∀ m ∈ l, (g m).isSome = true) →
      l.filterMap (fun m => (g m).map f) = l.map (fun m => f ((g m).getD d)) := by
  intro l
  induction l with
  | nil => intro _; rfl
  | cons a t ih =>
      intro h
      have ha : (g a).isSome = true := h a (List.mem_cons_self a t)
      obtain ⟨s, hs⟩ := Option.isSome_iff_exists.mp ha
      have hfm : List.filterMap (fun m => Option.map f (g m)) (a :: t)
          = f s :: List.filterMap (fun m => Option.map f (g m)) t := by
        rw [List.filterMap_cons, hs]
        rfl
      rw [hfm, ih (fun m hm => h m (List.mem_cons_of_mem a hm)), List.map_cons, hs]
      rfl

/-- C5: on an ordered sequence of at least 2 wave metrics whose first
throughput is positive and whose connection snapshots are all present, the
analyzer computes `degradation_pct = (first - last) / first * 100` and
reports each finding exactly under its threshold: significant degradation
iff pct > 20, and then memory leak iff memory delta > 100, connection leak
iff total-connection delta > 100, port-exhaustion risk iff the last
TIME_WAIT count > 1000, and gradual (rather than sudden) degradation iff
the midpoint throughput drop relative to first exceeds 10%. -/
theorem analyze_degradation_classification
    (metrics : List Investigate.WaveMetric)
    (h2 : 2 ≤ metrics.length)
    (hpos : 0 < (metrics.headD Investigate.dummyMetric).throughput)
    (hconn : ∀ m ∈ metrics, m.connections_after.isSome = true) :
    ∃ pct issues,
      Investigate.analyze_degradation metrics = some (pct, issues) ∧
      pct = ((metrics.headD Investigate.dummyMetric).throughput
              - (metrics.getLastD Investigate.dummyMetric).throughput)
            / (metrics.headD Investigate.dummyMetric).throughput * 100 ∧
      (Investigate.Issue.significantDegradation ∈ issues ↔ 20 < pct) ∧
      (Investigate.Issue.memoryLeakSuspected ∈ issues ↔ 20 < pct ∧
          100 < (metrics.getLastD Investigate.dummyMetric).memory_mb
              - (metrics.headD Investigate.dummyMetric).memory_mb) ∧
      (Investigate.Issue.connectionLeak ∈ issues ↔ 20 < pct ∧
          100 < ((metrics.getLastD Investigate.dummyMetric).connections_after.getD
                  Investigate.dummySnap).total
              - ((metrics.headD Investigate.dummyMetric).connections_after.getD
                  Investigate.dummySnap).total) ∧
      (Investigate.Issue.portExhaustionRisk ∈ issues ↔ 20 < pct ∧
          1000 < ((metrics.getLastD Investigate.dummyMetric).connections_after.getD
                  Investigate.dummySnap).time_wait) ∧
      (Investigate.Issue.gradualDegradation ∈ issues ↔ 20 < pct ∧
          1 / 10 < ((metrics.headD Investigate.dummyMetric).throughput
              - (metrics.getD (metrics.length / 2) Investigate.dummyMetric).throughput)
            / (metrics.headD Investigate.dummyMetric).throughput) ∧
      (Investigate.Issue.suddenDegradation ∈ issues ↔ 20 < pct ∧
          ¬ (1 / 10 < ((metrics.headD Investigate.dummyMetric).throughput
              - (metrics.getD (metrics.length / 2) Investigate.dummyMetric).throughput)
            / (metrics.headD Investigate.dummyMetric).throughput)) := by
  have hne : metrics ≠ [] := by
    intro h
    rw [h] at h2
    simp at h2
  have hmid : metrics.length / 2 < metrics.length := by omega
  have hT0 := getD_zero_map (fun m => m.throughput) metrics hne
    Investigate.dummyMetric 0
  have hTlast := getLastD_map (fun m => m.throughput) metrics hne
    Investigate.dummyMetric 0
  have hM0 := getD_zero_map (fun m => m.memory_mb) metrics hne
    Investigate.dummyMetric 0
  have hMlast := getLastD_map (fun m => m.memory_mb) metrics hne
    Investigate.dummyMetric 0
  have hTmid := getD_map (fun m => m.throughput) metrics
    Investigate.dummyMetric (metrics.length / 2) hmid 0
  have hCt := filterMap_opt_map Investigate.WaveMetric.connections_after
    (fun c => c.total) Investigate.dummySnap metrics hconn
  have hCw := filterMap_opt_map Investigate.WaveMetric.connections_after
    (fun c => c.time_wait) Investigate.dummySnap metrics hconn
  have hC0 := getD_zero_map
    (fun m : Investigate.WaveMetric =>
      (m.connections_after.getD Investigate.dummySnap).total)
    metrics hne Investigate.dummyMetric 0
  have hClast := getLastD_map
    (fun m : Investigate.WaveMetric =>
      (m.connections_after.getD Investigate.dummySnap).total)
    metrics hne Investigate.dummyMetric 0
  have hWlast := getLastD_map
    (fun m : Investigate.WaveMetric =>
      (m.connections_after.getD Investigate.dummySnap).time_wait)
    metrics hne Investigate.dummyMetric 0
  have hCne : metrics.map
      (fun m : Investigate.WaveMetric =>
        (m.connections_after.getD Investigate.dummySnap).total) ≠ [] := by
    simpa using hne
  have hWne : metrics.map
      (fun m : Investigate.WaveMetric =>
        (m.connections_after.getD Investigate.dummySnap).time_wait) ≠ [] := by
    simpa using hne
  simp only [Investigate.analyze_degradation, List.length_map]
  rw [if_neg (by omega : ¬ metrics.length < 2)]
  simp only [hCt, hCw, hT0, hTlast, hM0, hMlast, hTmid, hC0, hClast, hWlast]
  refine ⟨_, _, rfl, rfl, ?_⟩
  split_ifs <;> simp_all

/-- Concrete wave sequence realising the specification's classification
example: first throughput 1000, last 700, memory delta 150 MB, total
connection delta 50. -/
def exampleWaves : List Investigate.WaveMetric :=
  [⟨1000, 50, 100, some ⟨10, 0⟩⟩,
   ⟨950, 50, 120, some ⟨20, 0⟩⟩,
   ⟨900, 50, 150, some ⟨30, 0⟩⟩,
   ⟨800, 50, 200, some ⟨50, 0⟩⟩,
   ⟨700, 50, 250, some ⟨60, 0⟩⟩]

theorem analyze_degradation_classification_witness :
    2 ≤ exampleWaves.length ∧
    0 < (exampleWaves.headD Investigate.dummyMetric).throughput ∧
    ∃ pct issues,
      Investigate.analyze_degradation exampleWaves = some (pct, issues) ∧
      pct = 30 ∧
      Investigate.Issue.significantDegradation ∈ issues ∧
      Investigate.Issue.memoryLeakSuspected ∈ issues ∧
      Investigate.Issue.connectionLeak ∉ issues := by
  obtain ⟨pct, issues, heq, hpct, hsig, hmem, hcl, hport, hgrad, hsud⟩ :=
    analyze_degradation_classification exampleWaves (by decide)
      (by norm_num [exampleWaves, Investigate.dummyMetric]) (by decide)
  have hpct30 : pct = 30 := by
    rw [hpct]
    norm_num [exampleWaves, Investigate.dummyMetric]
  refine ⟨by decide, by norm_num [exampleWaves, Investigate.dummyMetric],
    pct, issues, heq, hpct30, ?_, ?_, ?_⟩
  · exact hsig.mpr (by rw [hpct30]; norm_num)
  · refine hmem.mpr ⟨by rw [hpct30]; norm_num, ?_⟩
    norm_num [exampleWaves, Investigate.dummyMetric, Investigate.dummySnap]
  · intro hin
    have h := (hcl.mp hin).2
    norm_num [exampleWaves, Investigate.dummyMetric, Investigate.dummySnap] at h

namespace Fixed

/-- Overall `success_rate` of `FixedBenchmark.run_benchmark`
(`fixed_benchmark.py` line 295):
`(cumulative_successes / cumulative_requests * 100)` — written with NO zero
guard, unlike every other rate in the file.  `none` models the
`ZeroDivisionError` Python raises when `cumulative_requests = 0`. -/
def overall_success_rate (cumulative_successes cumulative_requests : ℚ) : Option ℚ :=
  if cumulative_requests = 0 then none
  else some (cumulative_successes / cumulative_requests * 100)

end Fixed

/-- C6: the per-batch rates are guarded (0 at zero count or zero duration),
but the claim fails as a whole: with total volume 0 the driver creates no
batches, so `cumulative_requests = 0` and the overall `success_rate`
computation at `fixed_benchmark.py` line 295 divides by zero — Python raises
`ZeroDivisionError` (modelled as `none`) instead of producing a value in
`[0, 100]`. -/
theorem fixed_overall_success_rate_div_zero :
    Fixed.batchCounts 0 5000 = [] ∧
    Fixed.overall_success_rate 0 0 = none ∧
    (Fixed.run_batch 1 [] 0 0).success_rate = 0 ∧
    (Fixed.run_batch 1 [] 0 0).throughput = 0 ∧
    (Optimized.performance [] 0).success_rate = 0 ∧
    (Optimized.performance [] 0).throughput = 0 := by
  refine ⟨by decide, by decide, ?_, ?_, ?_, ?_⟩ <;>
    norm_num [Fixed.run_batch, Fixed.batchStats, Optimized.performance,
      Optimized.runStats]

namespace Controller

/-- State of the counting admission primitive
(`asyncio.Semaphore(concurrent)`) together with the number of requests
currently inside the `async with semaphore:` block
(`optimized_benchmark.py` lines 222-234, `fixed_benchmark.py` lines
109-126, `investigate_degradation.py` lines 93-113). -/
structure SemState where
  available : ℕ
  inFlight : ℕ
deriving DecidableEq

/-- Interleaving semantics of the controller-managed tasks: a task enters
the critical section (issues its request) only after acquiring a free
semaphore slot, and releases the slot the instant its request completes. -/
inductive SemStep : SemState → SemState → Prop
  | acquire (s : SemState) (h : 0 < s.available) :
      SemStep s ⟨s.available - 1, s.inFlight + 1⟩
  | release (s : SemState) (h : 0 < s.inFlight) :
      SemStep s ⟨s.available + 1, s.inFlight - 1⟩

/-- Initial state: the semaphore holds the configured bound `C` and no
request is in flight. -/
def initState (C : ℕ) : SemState := ⟨C, 0⟩

/-- States reachable by any interleaving of acquires and releases during a
controller-managed run. -/
inductive Reachable (C : ℕ) : SemState → Prop
  | init : Reachable C (initState C)
  | step {s t : SemState} : Reachable C s → SemStep s t → Reachable C t

lemma reachable_invariant (C : ℕ) (s : SemState) (h : Reachable C s) :
    s.available + s.inFlight = C := by
  induction h with
  | init => simp [initState]
  | step hr hs ih =>
      cases hs with
      | acquire hu => simp only; omega
      | release hu => simp only; omega

end Controller

/-- C7: under the semaphore-based concurrency controller with configured
bound `C`, at most `C` requests are in flight at any instant: every state
reachable by any interleaving of task acquires and releases has
`inFlight ≤ C`, so an observer at the target never sees concurrent-call
depth greater than `C`. -/
theorem semaphore_bounds_inflight (C : ℕ) (s : Controller.SemState)
    (h : Controller.Reachable C s) : s.inFlight ≤ C := by
  have hinv := Controller.reachable_invariant C s h
  omega

theorem semaphore_bounds_inflight_witness :
    Controller.Reachable 2 ⟨1, 1⟩ ∧ (⟨1, 1⟩ : Controller.SemState).inFlight ≤ 2 := by
  have hr : Controller.Reachable 2 ⟨1, 1⟩ :=
    Controller.Reachable.step Controller.Reachable.init
      (Controller.SemStep.acquire ⟨2, 0⟩ (by decide))
  exact ⟨hr, semaphore_bounds_inflight 2 ⟨1, 1⟩ hr⟩

namespace CPUMonitor

structure Summary where
  avg_cpu : ℚ
  peak_cpu : ℚ
  avg_memory : ℚ
  peak_memory : ℚ
deriving DecidableEq

/-- Python's `max` over a nonempty list (the 0 default is never used by
`stop`, which guards on emptiness first). -/
def listMax : List ℚ → ℚ
  | [] => 0
  | x :: xs => xs.foldl max x

/-- `CPUMonitor.stop` — identical in `optimized_benchmark.py` (lines 37-56)
and `enhanced_benchmark.py` (lines 36-55): the all-zero summary when no cpu
samples were collected, otherwise arithmetic means and maxima of the two
sample lists.  The monitor loop appends to `cpu_samples` and
`memory_samples` in lockstep, so the two lists always have equal length. -/
def stop (cpu_samples memory_samples : List ℚ) : Summary :=
  if cpu_samples = [] then ⟨0, 0, 0, 0⟩
  else
    ⟨cpu_samples.sum / cpu_samples.length, listMax cpu_samples,
     memory_samples.sum / memory_samples.length, listMax memory_samples⟩

lemma foldl_max_le (xs : List ℚ) :
    ∀ a, a ≤ xs.foldl max a ∧ ∀ x ∈ xs, x ≤ xs.foldl max a := by
  induction xs with
  | nil => intro a; exact ⟨le_refl a, by intro x hx; cases hx⟩
  | cons b t ih =>
      intro a
      have h1 := (ih (max a b)).1
      constructor
      · exact le_trans (le_max_left a b) h1
      · intro x hx
        rcases List.mem_cons.mp hx with rfl | hx2
        · exact le_trans (le_max_right a x) h1
        · exact (ih (max a b)).2 x hx2

lemma foldl_max_mem (xs : List ℚ) :
    ∀ a, xs.foldl max a = a ∨ xs.foldl max a ∈ xs := by
  induction xs with
  | nil => intro a; exact Or.inl rfl
  | cons b t ih =>
      intro a
      rcases ih (max a b) with h | h
      · rcases max_choice a b with hab | hab
        · exact Or.inl (by rw [List.foldl_cons, h, hab])
        · refine Or.inr ?_
          rw [List.foldl_cons, h, hab]
          exact List.mem_cons_self b t
      · exact Or.inr (List.mem_cons_of_mem b (by rwa [List.foldl_cons]))

lemma listMax_mem (l : List ℚ) (h : l ≠ []) : listMax l ∈ l := by
  cases l with
  | nil => exact absurd rfl h
  | cons a t =>
      rcases foldl_max_mem t a with h1 | h1
      · rw [listMax, h1]
        exact List.mem_cons_self a t
      · exact List.mem_cons_of_mem a (by rwa [listMax])

lemma le_listMax (l : List ℚ) (x : ℚ) (hx : x ∈ l) : x ≤ listMax l := by
  cases l with
  | nil => cases hx
  | cons a t =>
      rcases List.mem_cons.mp hx with rfl | h
      · exact (foldl_max_le t x).1
      · exact (foldl_max_le t a).2 x h

end CPUMonitor

/-- C8: `CPUMonitor.stop` with zero collected samples returns the all-zero
summary rather than raising; with at least one sample (the loop appends the
two sample lists in lockstep, hence equal lengths) the summary holds the
arithmetic mean (`avg * count = sum`) and the maximum (an attained upper
bound) of the collected CPU and memory samples. -/
theorem cpu_monitor_stop_summary (cpu memory : List ℚ)
    (hlen : cpu.length = memory.length) :
    (cpu = [] → CPUMonitor.stop cpu memory = ⟨0, 0, 0, 0⟩) ∧
    (cpu ≠ [] →
      (CPUMonitor.stop cpu memory).avg_cpu * cpu.length = cpu.sum ∧
      (CPUMonitor.stop cpu memory).peak_cpu ∈ cpu ∧
      (∀ x ∈ cpu, x ≤ (CPUMonitor.stop cpu memory).peak_cpu) ∧
      (CPUMonitor.stop cpu memory).avg_memory * memory.length = memory.sum ∧
      (CPUMonitor.stop cpu memory).peak_memory ∈ memory ∧
      (∀ x ∈ memory, x ≤ (CPUMonitor.stop cpu memory).peak_memory)) := by
  constructor
  · intro h
    simp [CPUMonitor.stop, h]
  · intro h
    have hmem_ne : memory ≠ [] := by
      intro hm
      rw [hm] at hlen
      simp at hlen
      exact h hlen
    have hcl : (0 : ℚ) < cpu.length := by
      have := List.length_pos.mpr h
      exact_mod_cast this
    have hml : (0 : ℚ) < memory.length := by
      have := List.length_pos.mpr hmem_ne
      exact_mod_cast this
    simp only [CPUMonitor.stop, h, if_false]
    refine ⟨div_mul_cancel₀ _ (ne_of_gt hcl), CPUMonitor.listMax_mem cpu h,
      fun x hx => CPUMonitor.le_listMax cpu x hx,
      div_mul_cancel₀ _ (ne_of_gt hml), CPUMonitor.listMax_mem memory hmem_ne,
      fun x hx => CPUMonitor.le_listMax memory x hx⟩

theorem cpu_monitor_stop_summary_witness :
    ([(10 : ℚ), 30].length = [(1 : ℚ), 2].length) ∧
    CPUMonitor.stop [(10 : ℚ), 30] [(1 : ℚ), 2]
      = ⟨20, 30, 3 / 2, 2⟩ ∧
    (CPUMonitor.stop [(10 : ℚ), 30] [(1 : ℚ), 2]).peak_cpu ∈ [(10 : ℚ), 30] ∧
    (CPUMonitor.stop [] ([] : List ℚ)) = ⟨0, 0, 0, 0⟩ :=
  ⟨rfl,
    by norm_num [CPUMonitor.stop, CPUMonitor.listMax]; decide,
    ((cpu_monitor_stop_summary [(10 : ℚ), 30] [(1 : ℚ), 2] rfl).2
      (List.cons_ne_nil _ _)).2.1,
    (cpu_monitor_stop_summary [] ([] : List ℚ) rfl).1 rfl⟩

end Benchmarks
